import Mathlib

/-!
Verification development for the AirStock stock ETL pipeline
(`load_data_to_db.py` and `airflow/dags/stock_etl_dag.py`).

The pipeline has two components executed in sequence:
* an Ingestor that loads one CSV file per instrument into a raw table
  (full replace), and
* a Feature Transformer that reads each raw table in date order, computes
  SMA_10, SMA_50, Daily_Return, RSI_14 and Volatility_30 with pandas rolling
  windows, drops incomplete rows, and writes a features table (full replace).

Numeric cells are modelled as `ℚ`; a pandas `NaN` cell is modelled as `none`
in `Option ℚ`.  Pandas rolling windows (`rolling(window=w, min_periods=m)`)
are modelled by `rollingApply`, which evaluates the statistic on the non-`none`
entries of the trailing window of length `min w (t+1)` and yields `none` when
fewer than `m` of them are present — exactly pandas' semantics.
-/

namespace AirStock

/-- Arithmetic mean of a list of rationals (`Series.mean()` on the window). -/
def meanQ (xs : List ℚ) : ℚ := xs.sum / xs.length

/-- Sample variance with `ddof = 1`, the square of pandas `Series.std()` on a
window.  The code stores the square root of this quantity; we carry the
radicand (a rational) and apply `Real.sqrt` where a claim speaks about the
standard deviation itself. -/
def sampleVarQ (xs : List ℚ) : ℚ :=
  ((xs.map (fun x => (x - meanQ xs) ^ 2)).sum) / ((xs.length : ℚ) - 1)

/-- The trailing window of length `min w (t+1)` ending at position `t`,
as pandas `rolling(window=w)` sees it: entries are read with `getD`, a
position outside the series reads as `none`. -/
def rollingWindow (w : Nat) (xs : List (Option ℚ)) (t : Nat) : List (Option ℚ) :=
  (List.range' (t + 1 - w) (min w (t + 1))).map (fun i => xs.getD i none)

/-- Pandas `s.rolling(window=w, min_periods=minp).agg f` at position `t`:
apply `f` to the non-missing entries of the trailing window if at least
`minp` of them are present, otherwise produce a missing value. -/
def rollingApply (w minp : Nat) (f : List ℚ → ℚ) (xs : List (Option ℚ)) (t : Nat) : Option ℚ :=
  if minp ≤ ((rollingWindow w xs t).filterMap id).length then
    some (f ((rollingWindow w xs t).filterMap id))
  else none

/-- The close price at position `i` of the coerced, date-ascending series. -/
def closeAt (closes : List ℚ) (i : Nat) : ℚ := closes.getD i 0

/-- `series.diff()` at position `t`: undefined (`NaN`) at the first position. -/
def deltaAt (closes : List ℚ) (t : Nat) : Option ℚ :=
  if t = 0 then none else some (closeAt closes t - closeAt closes (t - 1))

/-- `gain = delta.where(delta > 0, 0)`: the positive part of the difference;
the undefined first difference (`NaN > 0` is false) is replaced by `0`. -/
def gainAt (closes : List ℚ) (t : Nat) : ℚ :=
  match deltaAt closes t with
  | none => 0
  | some d => if 0 < d then d else 0

/-- `loss = -delta.where(delta < 0, 0)`: the magnitude of the negative part of
the difference; the undefined first difference is replaced by `0`. -/
def lossAt (closes : List ℚ) (t : Nat) : ℚ :=
  match deltaAt closes t with
  | none => 0
  | some d => if d < 0 then -d else 0

/-- The gain series fed to `gain.rolling(...)`: one (never-missing) entry per
position of the close series. -/
def gains (closes : List ℚ) : List (Option ℚ) :=
  (List.range closes.length).map (fun i => some (gainAt closes i))

/-- The loss series fed to `loss.rolling(...)`. -/
def losses (closes : List ℚ) : List (Option ℚ) :=
  (List.range closes.length).map (fun i => some (lossAt closes i))

/-- `avg_gain = gain.rolling(window=window, min_periods=1).mean()` at `t`. -/
def avgGainAt (window : Nat) (closes : List ℚ) (t : Nat) : Option ℚ :=
  rollingApply window 1 meanQ (gains closes) t

/-- `avg_loss = loss.rolling(window=window, min_periods=1).mean()` at `t`. -/
def avgLossAt (window : Nat) (closes : List ℚ) (t : Nat) : Option ℚ :=
  rollingApply window 1 meanQ (losses closes) t

/-- `calculate_rsi` at one position: `rs = np.where(avg_loss == 0, np.inf,
avg_gain / avg_loss)` followed by `rsi = 100 - (100 / (1 + rs))`.  When
`avg_loss == 0` the float code yields exactly `100`; otherwise the float
formula with finite `rs`.  Missing only where an average is missing (it never
is for positions inside the series). -/
def rsiAt (window : Nat) (closes : List ℚ) (t : Nat) : Option ℚ :=
  match avgGainAt window closes t, avgLossAt window closes t with
  | some g, some l => some (if l = 0 then 100 else 100 - 100 / (1 + g / l))
  | _, _ => none

/-- `calculate_rsi(series, window)` as a whole series. -/
def calculate_rsi (series : List ℚ) (window : Nat) : List (Option ℚ) :=
  (List.range series.length).map (fun t => rsiAt window series t)

/-- `df_raw['close'].rolling(window=w).mean()` at `t` (default
`min_periods = w`). -/
def smaAt (w : Nat) (closes : List ℚ) (t : Nat) : Option ℚ :=
  rollingApply w w meanQ (closes.map some) t

/-- `df_raw['close'].pct_change()` at `t`: missing at the first position,
otherwise the relative day-over-day change. -/
def dailyReturnAt (closes : List ℚ) (t : Nat) : Option ℚ :=
  if t = 0 then none
  else some ((closeAt closes t - closeAt closes (t - 1)) / closeAt closes (t - 1))

/-- The value of the daily return at a position `1 ≤ i`. -/
def dailyReturnVal (closes : List ℚ) (i : Nat) : ℚ :=
  (closeAt closes i - closeAt closes (i - 1)) / closeAt closes (i - 1)

/-- The `Daily_Return` column as a series (missing at position 0). -/
def dailyReturns (closes : List ℚ) : List (Option ℚ) :=
  (List.range closes.length).map (fun t => dailyReturnAt closes t)

/-- `df_raw['Daily_Return'].rolling(window=30).std()` at `t`, carried as the
radicand (the sample variance of the window).  The stored column is the
square root of this value; missingness is identical. -/
def vol30At (closes : List ℚ) (t : Nat) : Option ℚ :=
  rollingApply 30 30 sampleVarQ (dailyReturns closes) t

/-- The `Volatility_30` column as the code stores it: the rolling sample
standard deviation itself. -/
noncomputable def vol30StdAt (closes : List ℚ) (t : Nat) : Option ℝ :=
  (vol30At closes t).map (fun q => Real.sqrt (q : ℝ))

/-! ## Tables and the per-instrument transform

`transform_stock_data_and_store_features` reads `SELECT date, close, volume
FROM raw_table ORDER BY date ASC`, coerces `close`/`volume` to numeric
(`pd.to_numeric(..., errors='coerce')` followed by
`dropna(subset=['close','volume'])`), computes the five feature columns,
drops every row with a missing value, and replaces the features table.
A cell that is absent or fails numeric coercion is `none`. -/

/-- One stored raw observation: the `date` key and the (possibly missing or
non-numeric) `close` and `volume` cells. -/
structure RawRow where
  date : Int
  close : Option ℚ
  volume : Option ℚ
deriving DecidableEq

/-- A stored raw table: its column names (the schema the `SELECT` needs) and
its rows. -/
structure Table where
  cols : List String
  rows : List RawRow
deriving DecidableEq

/-- `SELECT ... FROM t` succeeds only when `date`, `close` and `volume` are
columns of the table. -/
def hasRequiredCols (t : Table) : Bool :=
  ("date" ∈ t.cols) && ("close" ∈ t.cols) && ("volume" ∈ t.cols)

/-- `ORDER BY date ASC`, as a stable insertion sort on the `date` key. -/
def insertByDate (r : RawRow) : List RawRow → List RawRow
  | [] => [r]
  | x :: xs => if r.date ≤ x.date then r :: x :: xs else x :: insertByDate r xs

/-- The rows of a raw table in ascending date order. -/
def orderByDateAsc (rows : List RawRow) : List RawRow :=
  rows.foldr insertByDate []

/-- Numeric coercion of one row: kept only when both `close` and `volume`
coerce (`dropna(subset=['close', 'volume'])` drops the others). -/
def coerceRow (r : RawRow) : Option (Int × ℚ × ℚ) :=
  match r.close, r.volume with
  | some c, some v => some (r.date, c, v)
  | _, _ => none

/-- The coerced, date-ascending series the feature engineering runs on. -/
def cleanRows (t : Table) : List (Int × ℚ × ℚ) :=
  (orderByDateAsc t.rows).filterMap coerceRow

/-- One row of a features table: `date, close, volume` plus the five derived
columns.  `Volatility_30` carries the radicand of the stored standard
deviation (see `sampleVarQ`); its missingness is exactly the column's. -/
structure FeatureRow where
  date : Int
  close : ℚ
  volume : ℚ
  SMA_10 : Option ℚ
  SMA_50 : Option ℚ
  Daily_Return : Option ℚ
  RSI_14 : Option ℚ
  Volatility_30 : Option ℚ
deriving DecidableEq

/-- A features table as written by `df_transformed.to_sql`. -/
abbrev FeatTable := List FeatureRow

/-- The `close` column of the clean series. -/
def closesOf (clean : List (Int × ℚ × ℚ)) : List ℚ := clean.map (fun x => x.2.1)

/-- The feature columns evaluated at every position of the clean series
(the block of rolling assignments in the source). -/
def buildFeatures (clean : List (Int × ℚ × ℚ)) : List FeatureRow :=
  (List.range clean.length).map (fun t =>
    { date := (clean.getD t (0, 0, 0)).1
      close := closeAt (closesOf clean) t
      volume := (clean.getD t (0, 0, 0)).2.2
      SMA_10 := smaAt 10 (closesOf clean) t
      SMA_50 := smaAt 50 (closesOf clean) t
      Daily_Return := dailyReturnAt (closesOf clean) t
      RSI_14 := rsiAt 14 (closesOf clean) t
      Volatility_30 := vol30At (closesOf clean) t })

/-- `df_transformed.dropna()`: a row survives only when every cell is
non-missing (`date`, `close`, `volume` always are). -/
def fullRow (r : FeatureRow) : Bool :=
  r.SMA_10.isSome && r.SMA_50.isSome && r.Daily_Return.isSome &&
    r.RSI_14.isSome && r.Volatility_30.isSome

/-- Outcome of the per-instrument body of the transform loop:
`error` models a raised exception (e.g. the `SELECT` failing on a malformed
schema), `skip` models the three `continue` branches ("no data", "no valid
numeric data", "no transformed data"), `ok` carries the rows written. -/
inductive TransformResult where
  | error : TransformResult
  | skip : TransformResult
  | ok : FeatTable → TransformResult
deriving DecidableEq

/-- The body of the transform loop for one raw table. -/
def transformOne (t : Table) : TransformResult :=
  if hasRequiredCols t then
    if (orderByDateAsc t.rows).isEmpty then .skip
    else if (cleanRows t).isEmpty then .skip
    else if ((buildFeatures (cleanRows t)).filter fullRow).isEmpty then .skip
    else .ok ((buildFeatures (cleanRows t)).filter fullRow)
  else .error

/-! ## The database and the two runs

The database holds one raw table per instrument (names ending in
`_ns_enriched`, written by the ingestors) and one features table per
instrument (the same name with `_ns_features` substituted, written by the
transformer).  Since the two suffix families are disjoint, we model the
store as two association lists keyed by the instrument identity; writing a
table is an in-place replacement of the entry (or an append when absent),
which is `to_sql(..., if_exists='replace')` at the granularity the claims
observe.  `lookupA` is what a reader of the database sees for one name. -/

/-- What a reader sees for key `k` in one keyspace of the store. -/
def lookupA {α : Type} (k : String) : List (String × α) → Option α
  | [] => none
  | (k', v) :: rest => if k' = k then some v else lookupA k rest

/-- Full-replace write of one table. -/
def insertA {α : Type} (k : String) (v : α) : List (String × α) → List (String × α)
  | [] => [(k, v)]
  | (k', v') :: rest => if k' = k then (k, v) :: rest else (k', v') :: insertA k v rest

/-- A sequence of full-replace writes, first to last. -/
def insertAllA {α : Type} (ps : List (String × α)) (s : List (String × α)) :
    List (String × α) :=
  ps.foldl (fun acc p => insertA p.1 p.2 acc) s

/-- `DROP TABLE IF EXISTS k`. -/
def eraseA {α : Type} (k : String) : List (String × α) → List (String × α)
  | [] => []
  | (k', v) :: rest => if k' = k then rest else (k', v) :: eraseA k rest

/-- The last value written for key `k` in a write sequence, if any. -/
def lastWrite {α : Type} (k : String) : List (String × α) → Option α
  | [] => none
  | p :: rest =>
    match lastWrite k rest with
    | some v => some v
    | none => if p.1 = k then some p.2 else none

/-- The whole database: raw tables (`*_ns_enriched`) and features tables
(`*_ns_features`), each keyed by the instrument identity. -/
structure Store where
  raw : List (String × Table)
  feat : List (String × FeatTable)
deriving DecidableEq

/-- One input CSV file: the instrument identity encoded in its name, a flag
for whether reading and parsing it succeeds, and its parsed contents
(column normalization and the dropping of unparseable dates are the thin
I/O glue the spec scopes out; `contents` is the table they produce). -/
structure CsvFile where
  inst : String
  ok : Bool
  contents : Table
deriving DecidableEq

/-- `load_csv_to_postgres` (`load_data_to_db.py`): one file is written with
full replace; any failure is caught by the per-file `try/except`, leaving
the store untouched.  Returns the store and whether the file loaded. -/
def load_csv_to_postgres (s : List (String × Table)) (f : CsvFile) :
    List (String × Table) × Bool :=
  if f.ok then (insertA f.inst f.contents s, true) else (s, false)

/-- The loading loop of `main` in `load_data_to_db.py`: every file is
attempted, in order, whatever happened to the files before it. -/
def loadAll (files : List CsvFile) (s : List (String × Table)) :
    List (String × Table) × List Bool :=
  match files with
  | [] => (s, [])
  | f :: fs =>
    let (s', b) := load_csv_to_postgres s f
    let (s'', bs) := loadAll fs s'
    (s'', b :: bs)

/-- `ingest_data_to_postgres` (the DAG ingest task): files are ingested in
order with full replace; there is no per-file handler, so a failing file
raises and aborts the task.  Returns the store and whether the task
succeeded. -/
def ingest_data_to_postgres (files : List CsvFile) (s : List (String × Table)) :
    List (String × Table) × Bool :=
  match files with
  | [] => (s, true)
  | f :: fs =>
    if f.ok then ingest_data_to_postgres fs (insertA f.inst f.contents s)
    else (s, false)

/-- The successfully executed full-replace writes of the DAG ingest task:
every file before the first failing one. -/
def ingestWrites (files : List CsvFile) : List (String × Table) :=
  (files.takeWhile (fun f => f.ok)).map (fun f => (f.inst, f.contents))

/-- The discovery query of the transformer
(`SELECT table_name ... LIKE '%_ns_enriched'`): the raw-table names. -/
def rawKeys (s : List (String × Table)) : List String := s.map Prod.fst

/-- The transform loop over the discovered raw-table names.  An `error`
outcome models the raised exception: it propagates, so the loop stops and
the store stays as it is; `skip` is `continue`; `ok` drops and rewrites the
instrument's features table. -/
def transformGo (s : Store) : List String → Store
  | [] => s
  | n :: ns =>
    match lookupA n s.raw with
    | none => transformGo s ns
    | some t =>
      match transformOne t with
      | .error => s
      | .skip => transformGo s ns
      | .ok ft => transformGo { s with feat := insertA n ft s.feat } ns

/-- `transform_stock_data_and_store_features`: discover the raw tables, then
run the loop. -/
def transformRun (s : Store) : Store :=
  transformGo s (rawKeys s.raw)

/-- One DAG run: `ingest_task >> transform_task`.  The transform task runs
only when ingestion succeeded. -/
def runPipeline (files : List CsvFile) (s : Store) : Store :=
  if (ingest_data_to_postgres files s.raw).2 then
    transformRun { raw := (ingest_data_to_postgres files s.raw).1, feat := s.feat }
  else { raw := (ingest_data_to_postgres files s.raw).1, feat := s.feat }

/-- The features-table writes the transform loop performs, as a function of
the raw-table reader and the discovered names only (an `error` cuts the
list short, mirroring the abort). -/
def goWrites (lk : String → Option Table) : List String → List (String × FeatTable)
  | [] => []
  | n :: ns =>
    match lk n with
    | none => goWrites lk ns
    | some t =>
      match transformOne t with
      | .error => []
      | .skip => goWrites lk ns
      | .ok ft => (n, ft) :: goWrites lk ns

/-- The three states of one raw table a concurrent reader can observe while
the ingestor replaces it (lines 82–88 of the DAG): before the replace, after
`DROP TABLE ... ; conn.commit()`, and after `df.to_sql`.  The transformer's
features replace (lines 193–198) commits the same way. -/
def ingestReplaceStates (s : List (String × Table)) (k : String) (newT : Table) :
    List (List (String × Table)) :=
  [s, eraseA k s, insertA k newT (eraseA k s)]

/-! ## Concrete fixtures used by witnesses and counterexamples -/

/-- The ten-point close series of the spec's SMA example. -/
def exampleCloses : List ℚ := [10, 11, 12, 11, 10, 9, 10, 11, 12, 13]

/-- Fifty identical observations (close = volume = 1). -/
def constRows : List RawRow :=
  List.replicate 50 { date := 0, close := some 1, volume := some 1 }

/-- A well-formed raw table with 50 constant observations — just enough for
one fully-warmed-up feature row. -/
def goodTable : Table := { cols := ["date", "close", "volume"], rows := constRows }

/-- The single feature row `goodTable` produces (position 49 of the constant
series). -/
def goodRow : FeatureRow :=
  { date := 0, close := 1, volume := 1, SMA_10 := some 1, SMA_50 := some 1,
    Daily_Return := some 0, RSI_14 := some 100, Volatility_30 := some 0 }

/-- A raw table whose schema lacks the `close` column: the transformer's
`SELECT` raises on it. -/
def badSchemaTable : Table := { cols := ["date", "volume"], rows := [] }

/-- A raw table whose only row fails numeric coercion: empty after cleaning. -/
def unparsableTable : Table :=
  { cols := ["date", "close", "volume"],
    rows := [{ date := 0, close := none, volume := some 1 }] }

/-- Raw-table contents before and after a replace, for the visibility model. -/
def oldTable : Table :=
  { cols := ["date", "close", "volume"],
    rows := [{ date := 0, close := some 1, volume := some 1 }] }

/-- The rebuilt contents of the same table. -/
def newTable : Table :=
  { cols := ["date", "close", "volume"],
    rows := [{ date := 0, close := some 2, volume := some 1 }] }

/-- A database holding a malformed raw table between two good ones. -/
def storeWithBadSchema : Store :=
  { raw := [("a", unparsableTable), ("b", badSchemaTable), ("c", goodTable)], feat := [] }

/-- The same database without the malformed table. -/
def storeWithoutBadSchema : Store :=
  { raw := [("a", unparsableTable), ("c", goodTable)], feat := [] }

/-- A database whose only raw table cleans to nothing, with a features table
left over from an earlier run. -/
def skipStore : Store :=
  { raw := [("a", unparsableTable)], feat := [("a", [goodRow])] }

/-- A loadable file. -/
def fileA : CsvFile := { inst := "a", ok := true, contents := unparsableTable }

/-- An unreadable file. -/
def fileB : CsvFile := { inst := "b", ok := false, contents := badSchemaTable }

/-- A raw-table reader over three instruments, the second malformed. -/
def lkDemo : String → Option Table :=
  fun n => lookupA n [("a", unparsableTable), ("b", badSchemaTable), ("c", goodTable)]

/-! ## Spec-side descriptions of the rolling statistics

These definitions follow the spec's words ("arithmetic mean of `close`
over the trailing 10 and 50 observations", "rolling mean of `gain`/`loss`
over the trailing 14 observations ... minimum window of 1", "rolling sample
standard deviation of `Daily_Return` over the trailing 30 observations")
and are compared against the code-side rolling definitions. -/

/-- The trailing `min w (t+1)` close observations ending at position `t`. -/
def trailingCloses (w : Nat) (closes : List ℚ) (t : Nat) : List ℚ :=
  (List.range' (t + 1 - w) (min w (t + 1))).map (closeAt closes)

/-- The trailing up-to-14 per-step gains ending at position `t`. -/
def trailingGains (closes : List ℚ) (t : Nat) : List ℚ :=
  (List.range' (t + 1 - 14) (min 14 (t + 1))).map (gainAt closes)

/-- The trailing up-to-14 per-step losses ending at position `t`. -/
def trailingLosses (closes : List ℚ) (t : Nat) : List ℚ :=
  (List.range' (t + 1 - 14) (min 14 (t + 1))).map (lossAt closes)

/-- The trailing 30 daily returns ending at position `t` (meaningful for
`30 ≤ t`, where all 30 exist). -/
def trailingReturns (closes : List ℚ) (t : Nat) : List ℚ :=
  (List.range' (t + 1 - 30) 30).map (fun i => dailyReturnVal closes i)

/-! ## Window lemmas -/

theorem getD_map_range (f : Nat → Option ℚ) (n i : Nat) :
    ((List.range n).map f).getD i none = if i < n then f i else none := by
  by_cases h : i < n
  · simp [List.getD_eq_getElem?_getD, List.getElem?_map, List.getElem?_range, h]
  · rw [List.getD_eq_getElem?_getD, List.getElem?_eq_none (by simpa using Nat.le_of_not_lt h)]
    simp [h]

theorem getD_map_some (closes : List ℚ) (i : Nat) (h : i < closes.length) :
    (closes.map some).getD i none = some (closeAt closes i) := by
  rw [List.getD_eq_getElem?_getD, List.getElem?_map, List.getElem?_eq_getElem h]
  simp [closeAt, List.getD_eq_getElem?_getD, List.getElem?_eq_getElem h]

theorem filterMap_id_map_some (l : List ℚ) : (l.map some).filterMap id = l := by
  induction l with
  | nil => rfl
  | cons a l ih => simp [List.filterMap_cons, ih]

theorem rollingWindow_eq_map (w : Nat) (xs : List (Option ℚ)) (g : Nat → ℚ) (t : Nat)
    (h : ∀ i, t + 1 - w ≤ i → i ≤ t → xs.getD i none = some (g i)) :
    rollingWindow w xs t =
      ((List.range' (t + 1 - w) (min w (t + 1))).map g).map some := by
  unfold rollingWindow
  rw [List.map_map]
  refine List.map_congr_left ?_
  intro i hi
  rw [List.mem_range'_1] at hi
  exact h i hi.1 (by omega)

/-- Pandas rolling with every window entry present: the statistic of the
trailing values, provided `min_periods` is met. -/
theorem rollingApply_all_some (w minp : Nat) (f : List ℚ → ℚ) (xs : List (Option ℚ))
    (g : Nat → ℚ) (t : Nat)
    (h : ∀ i, t + 1 - w ≤ i → i ≤ t → xs.getD i none = some (g i))
    (hm : minp ≤ min w (t + 1)) :
    rollingApply w minp f xs t =
      some (f ((List.range' (t + 1 - w) (min w (t + 1))).map g)) := by
  unfold rollingApply
  rw [rollingWindow_eq_map w xs g t h, filterMap_id_map_some]
  rw [if_pos (by simpa using hm)]

/-- Pandas rolling yields a missing value whenever even a full window could
not meet `min_periods`. -/
theorem rollingApply_none_of_short (w minp : Nat) (f : List ℚ → ℚ)
    (xs : List (Option ℚ)) (t : Nat) (h : min w (t + 1) < minp) :
    rollingApply w minp f xs t = none := by
  unfold rollingApply
  rw [if_neg]
  intro hc
  have hle : ((rollingWindow w xs t).filterMap id).length ≤ min w (t + 1) := by
    calc ((rollingWindow w xs t).filterMap id).length
        ≤ (rollingWindow w xs t).length := List.length_filterMap_le _ _
      _ = min w (t + 1) := by simp [rollingWindow]
  omega

theorem gains_getD (closes : List ℚ) (i : Nat) (h : i < closes.length) :
    (gains closes).getD i none = some (gainAt closes i) := by
  rw [gains, getD_map_range, if_pos h]

theorem losses_getD (closes : List ℚ) (i : Nat) (h : i < closes.length) :
    (losses closes).getD i none = some (lossAt closes i) := by
  rw [losses, getD_map_range, if_pos h]

theorem dailyReturns_getD (closes : List ℚ) (i : Nat) (h1 : 1 ≤ i)
    (h2 : i < closes.length) :
    (dailyReturns closes).getD i none = some (dailyReturnVal closes i) := by
  rw [dailyReturns, getD_map_range, if_pos h2, dailyReturnAt, if_neg (by omega)]
  rfl

theorem gainAt_nonneg (closes : List ℚ) (t : Nat) : 0 ≤ gainAt closes t := by
  unfold gainAt
  cases deltaAt closes t with
  | none => exact le_refl 0
  | some d =>
    dsimp only
    split
    · linarith
    · exact le_refl 0

theorem lossAt_nonneg (closes : List ℚ) (t : Nat) : 0 ≤ lossAt closes t := by
  unfold lossAt
  cases deltaAt closes t with
  | none => exact le_refl 0
  | some d =>
    dsimp only
    split
    · linarith
    · exact le_refl 0

theorem meanQ_nonneg (xs : List ℚ) (h : ∀ x ∈ xs, 0 ≤ x) : 0 ≤ meanQ xs :=
  div_nonneg (List.sum_nonneg h) (Nat.cast_nonneg _)

theorem trailingGains_nonneg (closes : List ℚ) (t : Nat) :
    ∀ x ∈ trailingGains closes t, 0 ≤ x := by
  intro x hx
  rw [trailingGains, List.mem_map] at hx
  obtain ⟨i, _, rfl⟩ := hx
  exact gainAt_nonneg closes i

theorem trailingLosses_nonneg (closes : List ℚ) (t : Nat) :
    ∀ x ∈ trailingLosses closes t, 0 ≤ x := by
  intro x hx
  rw [trailingLosses, List.mem_map] at hx
  obtain ⟨i, _, rfl⟩ := hx
  exact lossAt_nonneg closes i

theorem avgGainAt_eq (closes : List ℚ) (t : Nat) (ht : t < closes.length) :
    avgGainAt 14 closes t = some (meanQ (trailingGains closes t)) := by
  rw [avgGainAt, rollingApply_all_some 14 1 meanQ (gains closes) (gainAt closes) t
    (fun i _ h2 => gains_getD closes i (by omega)) (by omega)]
  rfl

theorem avgLossAt_eq (closes : List ℚ) (t : Nat) (ht : t < closes.length) :
    avgLossAt 14 closes t = some (meanQ (trailingLosses closes t)) := by
  rw [avgLossAt, rollingApply_all_some 14 1 meanQ (losses closes) (lossAt closes) t
    (fun i _ h2 => losses_getD closes i (by omega)) (by omega)]
  rfl

/-- The whole `Volatility_30` warm-up story in one place: missing through
position 29 (the window of position 29 still contains the undefined first
daily return), present from position 30 on. -/
theorem vol30At_none_of_lt (closes : List ℚ) (t : Nat) (ht : t < closes.length)
    (h : t < 30) : vol30At closes t = none := by
  rcases Nat.lt_or_ge t 29 with h28 | h29
  · exact rollingApply_none_of_short _ _ _ _ _ (by omega)
  · have ht29 : t = 29 := by omega
    subst ht29
    have h0 : (dailyReturns closes).getD 0 none = none := by
      rw [dailyReturns, getD_map_range, if_pos (by omega), dailyReturnAt, if_pos rfl]
    have hw : rollingWindow 30 (dailyReturns closes) 29 =
        none :: (List.range' 1 29).map (fun i => (dailyReturns closes).getD i none) := by
      unfold rollingWindow
      have hr : List.range' (29 + 1 - 30) (min 30 (29 + 1)) = 0 :: List.range' 1 29 := by
        norm_num
        rfl
      rw [hr, List.map_cons, h0]
    have hlen : ((rollingWindow 30 (dailyReturns closes) 29).filterMap id).length ≤ 29 := by
      rw [hw, List.filterMap_cons]
      calc (List.filterMap id ((List.range' 1 29).map
              (fun i => (dailyReturns closes).getD i none))).length
          ≤ ((List.range' 1 29).map (fun i => (dailyReturns closes).getD i none)).length :=
            List.length_filterMap_le _ _
        _ = 29 := by simp
    unfold vol30At rollingApply
    rw [if_neg (by omega)]

theorem vol30At_eq_of_ge (closes : List ℚ) (t : Nat) (ht : t < closes.length)
    (h : 30 ≤ t) : vol30At closes t = some (sampleVarQ (trailingReturns closes t)) := by
  rw [vol30At, rollingApply_all_some 30 30 sampleVarQ (dailyReturns closes)
    (fun i => dailyReturnVal closes i) t
    (fun i h1 h2 => dailyReturns_getD closes i (by omega) (by omega)) (by omega)]
  rw [trailingReturns]
  have : min 30 (t + 1) = 30 := by omega
  rw [this]

/-! ## Evaluation of the constant fifty-row table -/

theorem getD_replicate {α : Type} (n i : Nat) (a d : α) (h : i < n) :
    (List.replicate n a).getD i d = a := by
  rw [List.getD_eq_getElem?_getD, List.getElem?_replicate, if_pos h]
  rfl

theorem insertByDate_replicate (r : RawRow) (n : Nat) :
    insertByDate r (List.replicate n r) = List.replicate (n + 1) r := by
  cases n with
  | zero => rfl
  | succ k => simp [insertByDate, List.replicate_succ]

theorem orderByDateAsc_replicate (r : RawRow) (n : Nat) :
    orderByDateAsc (List.replicate n r) = List.replicate n r := by
  induction n with
  | zero => rfl
  | succ k ih =>
    rw [List.replicate_succ, orderByDateAsc, List.foldr_cons]
    rw [show List.foldr insertByDate [] (List.replicate k r) =
        orderByDateAsc (List.replicate k r) from rfl, ih, insertByDate_replicate,
      List.replicate_succ]

theorem filterMap_replicate_some {α β : Type} (f : α → Option β) (a : α) (b : β)
    (h : f a = some b) (n : Nat) :
    (List.replicate n a).filterMap f = List.replicate n b := by
  induction n with
  | zero => rfl
  | succ k ih =>
    rw [List.replicate_succ, List.filterMap_cons, h, ih, List.replicate_succ]

theorem cleanRows_goodTable :
    cleanRows goodTable = List.replicate 50 ((0 : Int), (1 : ℚ), (1 : ℚ)) := by
  rw [cleanRows]
  show (orderByDateAsc constRows).filterMap coerceRow = _
  rw [constRows, orderByDateAsc_replicate,
    filterMap_replicate_some coerceRow
      { date := 0, close := some 1, volume := some 1 }
      ((0 : Int), (1 : ℚ), (1 : ℚ)) rfl 50]

theorem closeAt_replicate (n i : Nat) (q : ℚ) (h : i < n) :
    closeAt (List.replicate n q) i = q := by
  rw [closeAt, getD_replicate n i q 0 h]

theorem meanQ_replicate (n : Nat) (q : ℚ) (h : 0 < n) :
    meanQ (List.replicate n q) = q := by
  rw [meanQ, List.sum_replicate, List.length_replicate, nsmul_eq_mul]
  exact mul_div_cancel_left₀ q (Nat.cast_ne_zero.mpr h.ne')

theorem meanQ_of_all_zero (xs : List ℚ) (h : ∀ x ∈ xs, x = 0) : meanQ xs = 0 := by
  rw [meanQ, List.sum_eq_zero h, zero_div]

theorem smaAt_replicate_closed (w n t : Nat) (hw : 0 < w) (ht : t < n) :
    smaAt w (List.replicate n (1 : ℚ)) t = if w ≤ t + 1 then some 1 else none := by
  by_cases h : w ≤ t + 1
  · rw [if_pos h, smaAt, rollingApply_all_some w w meanQ _ (fun _ => (1 : ℚ)) t
      (fun i h1 h2 => by
        rw [List.map_replicate, getD_replicate n i (some (1 : ℚ)) none (by omega)])
      (by omega)]
    have hmap : (List.range' (t + 1 - w) (min w (t + 1))).map (fun _ => (1 : ℚ)) =
        List.replicate (min w (t + 1)) (1 : ℚ) := by
      rw [List.map_const', List.length_range']
    rw [hmap, meanQ_replicate _ _ (by omega)]
  · rw [if_neg h]
    exact rollingApply_none_of_short _ _ _ _ _ (by omega)

theorem dailyReturnAt_replicate_closed (n t : Nat) (ht : t < n) :
    dailyReturnAt (List.replicate n (1 : ℚ)) t = if t = 0 then none else some 0 := by
  by_cases h : t = 0
  · rw [if_pos h, dailyReturnAt, if_pos h]
  · rw [if_neg h, dailyReturnAt, if_neg h, closeAt_replicate n t 1 ht,
      closeAt_replicate n (t - 1) 1 (by omega)]
    norm_num

theorem lossAt_replicate (n t : Nat) (ht : t < n) :
    lossAt (List.replicate n (1 : ℚ)) t = 0 := by
  rcases Nat.eq_zero_or_pos t with rfl | h1
  · simp [lossAt, deltaAt]
  · rw [lossAt, deltaAt, if_neg (by omega), closeAt_replicate n t 1 ht,
      closeAt_replicate n (t - 1) 1 (by omega)]
    norm_num

theorem dailyReturnVal_replicate (n i : Nat) (hi : i < n) :
    dailyReturnVal (List.replicate n (1 : ℚ)) i = 0 := by
  rw [dailyReturnVal, closeAt_replicate n i 1 hi, closeAt_replicate n (i - 1) 1 (by omega)]
  norm_num

theorem rsiAt_replicate (n t : Nat) (ht : t < n) :
    rsiAt 14 (List.replicate n (1 : ℚ)) t = some 100 := by
  have hlen : t < (List.replicate n (1 : ℚ)).length := by simpa using ht
  have hl : avgLossAt 14 (List.replicate n (1 : ℚ)) t = some 0 := by
    rw [avgLossAt_eq _ t hlen]
    congr 1
    refine meanQ_of_all_zero _ ?_
    intro x hx
    rw [trailingLosses, List.mem_map] at hx
    obtain ⟨i, hi, rfl⟩ := hx
    rw [List.mem_range'_1] at hi
    exact lossAt_replicate n i (by omega)
  rw [rsiAt, avgGainAt_eq _ t hlen, hl]
  norm_num

theorem vol30At_replicate_closed (n t : Nat) (ht : t < n) :
    vol30At (List.replicate n (1 : ℚ)) t = if 30 ≤ t then some 0 else none := by
  have hlen : t < (List.replicate n (1 : ℚ)).length := by simpa using ht
  by_cases h : 30 ≤ t
  · rw [if_pos h, vol30At_eq_of_ge _ t hlen h]
    have hz : ∀ x ∈ trailingReturns (List.replicate n (1 : ℚ)) t, x = 0 := by
      intro x hx
      rw [trailingReturns, List.mem_map] at hx
      obtain ⟨i, hi, rfl⟩ := hx
      rw [List.mem_range'_1] at hi
      exact dailyReturnVal_replicate n i (by omega)
    rw [sampleVarQ, meanQ_of_all_zero _ hz, List.sum_eq_zero, zero_div]
    intro x hx
    rw [List.mem_map] at hx
    obtain ⟨y, hy, rfl⟩ := hx
    rw [hz y hy]
    norm_num
  · rw [if_neg h]
    exact vol30At_none_of_lt _ t hlen (by omega)

theorem buildFeatures_goodTable :
    (buildFeatures (List.replicate 50 ((0 : Int), (1 : ℚ), (1 : ℚ)))).filter fullRow
      = [goodRow] := by
  have hc : closesOf (List.replicate 50 ((0 : Int), (1 : ℚ), (1 : ℚ)))
      = List.replicate 50 (1 : ℚ) := by
    rw [closesOf, List.map_replicate]
  have hrange : List.range 50 =
      [0, 1, 2, 3, 4, 5, 6, 7, 8, 9, 10, 11, 12, 13, 14, 15, 16, 17, 18, 19,
       20, 21, 22, 23, 24, 25, 26, 27, 28, 29, 30, 31, 32, 33, 34, 35, 36, 37,
       38, 39, 40, 41, 42, 43, 44, 45, 46, 47, 48, 49] := by decide
  rw [buildFeatures, List.length_replicate, hc]
  have hmap : (List.range 50).map (fun t =>
      ({ date := ((List.replicate 50 ((0 : Int), (1 : ℚ), (1 : ℚ))).getD t (0, 0, 0)).1
         close := closeAt (List.replicate 50 (1 : ℚ)) t
         volume := ((List.replicate 50 ((0 : Int), (1 : ℚ), (1 : ℚ))).getD t (0, 0, 0)).2.2
         SMA_10 := smaAt 10 (List.replicate 50 (1 : ℚ)) t
         SMA_50 := smaAt 50 (List.replicate 50 (1 : ℚ)) t
         Daily_Return := dailyReturnAt (List.replicate 50 (1 : ℚ)) t
         RSI_14 := rsiAt 14 (List.replicate 50 (1 : ℚ)) t
         Volatility_30 := vol30At (List.replicate 50 (1 : ℚ)) t } : FeatureRow)) =
      (List.range 50).map (fun t =>
      ({ date := 0, close := 1, volume := 1,
         SMA_10 := if 10 ≤ t + 1 then some 1 else none,
         SMA_50 := if 50 ≤ t + 1 then some 1 else none,
         Daily_Return := if t = 0 then none else some 0,
         RSI_14 := some 100,
         Volatility_30 := if 30 ≤ t then some 0 else none } : FeatureRow)) := by
    refine List.map_congr_left ?_
    intro t ht
    rw [List.mem_range] at ht
    rw [smaAt_replicate_closed 10 50 t (by norm_num) ht,
      smaAt_replicate_closed 50 50 t (by norm_num) ht,
      dailyReturnAt_replicate_closed 50 t ht, rsiAt_replicate 50 t ht,
      vol30At_replicate_closed 50 t ht, closeAt_replicate 50 t 1 ht,
      getD_replicate 50 t ((0 : Int), (1 : ℚ), (1 : ℚ)) (0, 0, 0) ht]
  rw [hmap, hrange]
  simp [fullRow, goodRow]

theorem transformOne_goodTable : transformOne goodTable = .ok [goodRow] := by
  have hord : orderByDateAsc goodTable.rows =
      List.replicate 50 ({ date := 0, close := some 1, volume := some 1 } : RawRow) := by
    rw [show goodTable.rows = constRows from rfl, constRows, orderByDateAsc_replicate]
  rw [transformOne, cleanRows_goodTable, hord, buildFeatures_goodTable]
  simp [hasRequiredCols, goodTable]

theorem transformOne_unparsableTable : transformOne unparsableTable = .skip := by
  simp [transformOne, unparsableTable, hasRequiredCols, cleanRows, orderByDateAsc,
    insertByDate, coerceRow, List.filterMap_cons]

theorem transformOne_badSchemaTable : transformOne badSchemaTable = .error := by
  simp [transformOne, badSchemaTable, hasRequiredCols]

/-! ## Association-list lemmas -/

theorem lookupA_insertA_self {α : Type} (k : String) (v : α) (s : List (String × α)) :
    lookupA k (insertA k v s) = some v := by
  induction s with
  | nil => simp [lookupA, insertA]
  | cons p rest ih =>
    obtain ⟨k2, v2⟩ := p
    by_cases h : k2 = k
    · simp [insertA, lookupA, h]
    · simp [insertA, lookupA, h, ih]

theorem lookupA_insertA_ne {α : Type} (k k' : String) (v : α) (s : List (String × α))
    (h : k' ≠ k) : lookupA k (insertA k' v s) = lookupA k s := by
  induction s with
  | nil => simp [lookupA, insertA, h]
  | cons p rest ih =>
    obtain ⟨k2, v2⟩ := p
    by_cases h2 : k2 = k'
    · subst h2
      simp [insertA, lookupA, h, Ne.symm h]
    · by_cases hk : k2 = k
      · simp [insertA, lookupA, h2, hk, Ne.symm h]
      · simp [insertA, lookupA, h2, hk, ih]

theorem lookupA_eq_none_iff {α : Type} (k : String) (s : List (String × α)) :
    lookupA k s = none ↔ k ∉ s.map Prod.fst := by
  induction s with
  | nil => simp [lookupA]
  | cons p rest ih =>
    obtain ⟨k2, v2⟩ := p
    by_cases h : k2 = k
    · simp [lookupA, h]
    · simp [lookupA, h, ih, Ne.symm h]

theorem lastWrite_eq_none_iff {α : Type} (k : String) (ps : List (String × α)) :
    lastWrite k ps = none ↔ k ∉ ps.map Prod.fst := by
  induction ps with
  | nil => simp [lastWrite]
  | cons p rest ih =>
    obtain ⟨k2, v2⟩ := p
    rw [lastWrite]
    cases hl : lastWrite k rest with
    | some v =>
      have hk : k ∈ List.map Prod.fst rest := by
        by_contra hn
        rw [ih.mpr hn] at hl
        exact Option.noConfusion hl
      simp [hk]
    | none =>
      by_cases h : k2 = k
      · simp [h]
      · simp [h, Ne.symm h, ih.mp hl]

theorem lookupA_insertAllA {α : Type} (k : String) (ps s : List (String × α)) :
    lookupA k (insertAllA ps s) = (lastWrite k ps).elim (lookupA k s) some := by
  induction ps generalizing s with
  | nil => simp [insertAllA, lastWrite]
  | cons p rest ih =>
    obtain ⟨k2, v2⟩ := p
    rw [show insertAllA ((k2, v2) :: rest) s = insertAllA rest (insertA k2 v2 s) from rfl]
    rw [ih]
    rw [lastWrite]
    cases hl : lastWrite k rest with
    | some v => simp
    | none =>
      by_cases h : k2 = k
      · subst h
        simp [lookupA_insertA_self]
      · simp [h, lookupA_insertA_ne k k2 v2 s h]

theorem lookupA_insertAllA_not_mem {α : Type} (k : String) (ps s : List (String × α))
    (h : k ∉ ps.map Prod.fst) : lookupA k (insertAllA ps s) = lookupA k s := by
  rw [lookupA_insertAllA, (lastWrite_eq_none_iff k ps).mpr h]
  rfl

theorem lookupA_insertAllA_idem {α : Type} (k : String) (ps s : List (String × α)) :
    lookupA k (insertAllA ps (insertAllA ps s)) = lookupA k (insertAllA ps s) := by
  rw [lookupA_insertAllA, lookupA_insertAllA]
  cases lastWrite k ps <;> simp

theorem map_fst_insertA {α : Type} (k : String) (v : α) (s : List (String × α))
    (h : k ∈ s.map Prod.fst) : (insertA k v s).map Prod.fst = s.map Prod.fst := by
  induction s with
  | nil => simp at h
  | cons p rest ih =>
    obtain ⟨k2, v2⟩ := p
    by_cases h2 : k2 = k
    · simp [insertA, h2]
    · simp only [List.map_cons] at h
      rcases List.mem_cons.mp h with hc | hc


      · exact absurd hc.symm (by simpa using fun hx : k2 = k => h2 hx)
      · simp [insertA, h2, ih hc]

theorem mem_map_fst_of_lookupA {α : Type} (k : String) (s : List (String × α)) (v : α)
    (h : lookupA k s = some v) : k ∈ s.map Prod.fst := by
  by_contra hc
  rw [(lookupA_eq_none_iff k s).mpr hc] at h
  exact Option.noConfusion h

theorem mem_map_fst_insertAllA {α : Type} (ps s : List (String × α)) (k : String)
    (h : k ∈ ps.map Prod.fst) : k ∈ (insertAllA ps s).map Prod.fst := by
  have hl : lastWrite k ps ≠ none := by
    rw [Ne, lastWrite_eq_none_iff]
    exact fun hn => hn h
  cases hlw : lastWrite k ps with
  | none => exact absurd hlw hl
  | some v =>
    refine mem_map_fst_of_lookupA k _ v ?_
    rw [lookupA_insertAllA, hlw]
    rfl

theorem map_fst_insertAllA_of_subset {α : Type} (ps s : List (String × α))
    (h : ∀ p ∈ ps, p.1 ∈ s.map Prod.fst) :
    (insertAllA ps s).map Prod.fst = s.map Prod.fst := by
  induction ps generalizing s with
  | nil => rfl
  | cons p rest ih =>
    rw [show insertAllA (p :: rest) s = insertAllA rest (insertA p.1 p.2 s) from rfl]
    have h1 : (insertA p.1 p.2 s).map Prod.fst = s.map Prod.fst :=
      map_fst_insertA p.1 p.2 s (h p (by simp))
    rw [ih (insertA p.1 p.2 s) (fun q hq => h1 ▸ h q (by simp [hq])), h1]

/-! ## Ingest and transform loop lemmas -/

theorem ingest_snd (files : List CsvFile) (s : List (String × Table)) :
    (ingest_data_to_postgres files s).2 = files.all (fun f => f.ok) := by
  induction files generalizing s with
  | nil => simp [ingest_data_to_postgres]
  | cons f fs ih =>
    cases hf : f.ok with
    | true => simp [ingest_data_to_postgres, hf, ih]
    | false => simp [ingest_data_to_postgres, hf]

theorem ingestWrites_cons_ok (f : CsvFile) (fs : List CsvFile) (hf : f.ok = true) :
    ingestWrites (f :: fs) = (f.inst, f.contents) :: ingestWrites fs := by
  simp [ingestWrites, List.takeWhile_cons, hf]

theorem ingestWrites_cons_bad (f : CsvFile) (fs : List CsvFile) (hf : f.ok = false) :
    ingestWrites (f :: fs) = [] := by
  simp [ingestWrites, List.takeWhile_cons, hf]

theorem ingest_fst (files : List CsvFile) (s : List (String × Table)) :
    (ingest_data_to_postgres files s).1 = insertAllA (ingestWrites files) s := by
  induction files generalizing s with
  | nil => simp [ingest_data_to_postgres, ingestWrites, insertAllA]
  | cons f fs ih =>
    cases hf : f.ok with
    | true =>
      have h1 : ingest_data_to_postgres (f :: fs) s =
          ingest_data_to_postgres fs (insertA f.inst f.contents s) := by
        simp only [ingest_data_to_postgres, hf, if_true]
      rw [h1, ih, ingestWrites_cons_ok f fs hf]
      rfl
    | false =>
      have h1 : ingest_data_to_postgres (f :: fs) s = (s, false) := by
        simp [ingest_data_to_postgres, hf]
      rw [h1, ingestWrites_cons_bad f fs hf]
      rfl

theorem loadAll_snd (files : List CsvFile) (s : List (String × Table)) :
    (loadAll files s).2 = files.map (fun f => f.ok) := by
  induction files generalizing s with
  | nil => rfl
  | cons f fs ih =>
    cases hf : f.ok with
    | true => simp [loadAll, load_csv_to_postgres, hf, ih]
    | false => simp [loadAll, load_csv_to_postgres, hf, ih]

theorem transformGo_eq (ns : List String) (s : Store) :
    transformGo s ns =
      { raw := s.raw, feat := insertAllA (goWrites (fun n => lookupA n s.raw) ns) s.feat } := by
  induction ns generalizing s with
  | nil => rfl
  | cons n ns ih =>
    cases hl : lookupA n s.raw with
    | none =>
      have h1 : transformGo s (n :: ns) = transformGo s ns := by
        simp only [transformGo, hl]
      have h2 : goWrites (fun m => lookupA m s.raw) (n :: ns) =
          goWrites (fun m => lookupA m s.raw) ns := by
        simp only [goWrites, hl]
      rw [h1, h2, ih]
    | some t =>
      cases ht : transformOne t with
      | error =>
        have h1 : transformGo s (n :: ns) = s := by
          simp only [transformGo, hl, ht]
        have h2 : goWrites (fun m => lookupA m s.raw) (n :: ns) = [] := by
          simp only [goWrites, hl, ht]
        rw [h1, h2]
        rfl
      | skip =>
        have h1 : transformGo s (n :: ns) = transformGo s ns := by
          simp only [transformGo, hl, ht]
        have h2 : goWrites (fun m => lookupA m s.raw) (n :: ns) =
            goWrites (fun m => lookupA m s.raw) ns := by
          simp only [goWrites, hl, ht]
        rw [h1, h2, ih]
      | ok ft =>
        have h1 : transformGo s (n :: ns) =
            transformGo { s with feat := insertA n ft s.feat } ns := by
          simp only [transformGo, hl, ht]
        have h2 : goWrites (fun m => lookupA m s.raw) (n :: ns) =
            (n, ft) :: goWrites (fun m => lookupA m s.raw) ns := by
          simp only [goWrites, hl, ht]
        rw [h1, ih, h2]
        rfl

theorem goWrites_congr (lk1 lk2 : String → Option Table) (ns : List String)
    (h : ∀ n, lk1 n = lk2 n) : goWrites lk1 ns = goWrites lk2 ns := by
  induction ns with
  | nil => rfl
  | cons n ns ih => rw [goWrites, goWrites, h n, ih]

theorem goWrites_not_mem_of_skip (lk : String → Option Table) (ns : List String)
    (inst : String) (t : Table) (h1 : lk inst = some t) (h2 : transformOne t = .skip) :
    inst ∉ (goWrites lk ns).map Prod.fst := by
  induction ns with
  | nil => simp [goWrites]
  | cons n ns ih =>
    cases hl : lk n with
    | none =>
      have hs : goWrites lk (n :: ns) = goWrites lk ns := by simp only [goWrites, hl]
      rw [hs]; exact ih
    | some t' =>
      cases ht : transformOne t' with
      | error =>
        have hs : goWrites lk (n :: ns) = [] := by simp only [goWrites, hl, ht]
        rw [hs]; simp
      | skip =>
        have hs : goWrites lk (n :: ns) = goWrites lk ns := by simp only [goWrites, hl, ht]
        rw [hs]; exact ih
      | ok ft =>
        have hs : goWrites lk (n :: ns) = (n, ft) :: goWrites lk ns := by
          simp only [goWrites, hl, ht]
        rw [hs]
        simp only [List.map_cons, List.mem_cons]
        rintro (rfl | hm)
        · rw [h1] at hl
          cases hl
          rw [h2] at ht
          exact TransformResult.noConfusion ht
        · exact ih hm

theorem goWrites_append_error (lk : String → Option Table) (ns1 ns2 : List String)
    (b : String) (tb : Table) (hb : lk b = some tb) (htb : transformOne tb = .error)
    (h1 : ∀ n ∈ ns1, ∀ t', lk n = some t' → transformOne t' ≠ .error) :
    goWrites lk (ns1 ++ b :: ns2) = goWrites lk ns1 := by
  induction ns1 with
  | nil =>
    rw [List.nil_append]
    simp only [goWrites, hb, htb]
  | cons n rest ih =>
    have hrest : ∀ n ∈ rest, ∀ t', lk n = some t' → transformOne t' ≠ .error :=
      fun m hm => h1 m (by simp [hm])
    cases hl : lk n with
    | none =>
      have hs1 : goWrites lk ((n :: rest) ++ b :: ns2) = goWrites lk (rest ++ b :: ns2) := by
        rw [List.cons_append]; simp only [goWrites, hl]
      have hs2 : goWrites lk (n :: rest) = goWrites lk rest := by simp only [goWrites, hl]
      rw [hs1, hs2]; exact ih hrest
    | some t' =>
      cases ht : transformOne t' with
      | error => exact absurd ht (h1 n (by simp) t' hl)
      | skip =>
        have hs1 : goWrites lk ((n :: rest) ++ b :: ns2) = goWrites lk (rest ++ b :: ns2) := by
          rw [List.cons_append]; simp only [goWrites, hl, ht]
        have hs2 : goWrites lk (n :: rest) = goWrites lk rest := by
          simp only [goWrites, hl, ht]
        rw [hs1, hs2]; exact ih hrest
      | ok ft =>
        have hs1 : goWrites lk ((n :: rest) ++ b :: ns2) =
            (n, ft) :: goWrites lk (rest ++ b :: ns2) := by
          rw [List.cons_append]; simp only [goWrites, hl, ht]
        have hs2 : goWrites lk (n :: rest) = (n, ft) :: goWrites lk rest := by
          simp only [goWrites, hl, ht]
        rw [hs1, hs2, ih hrest]

/-! ## The claims -/

/-- **C1** — For every instrument processed by the Feature Transformer, every
row written into the FeaturesTable has a non-missing value in each of the five
derived fields `SMA_10`, `SMA_50`, `Daily_Return`, `RSI_14` and
`Volatility_30`: `df_transformed.dropna()` excludes every row with any missing
derived value before the write. -/
theorem features_rows_complete (t : Table) (ft : FeatTable) (r : FeatureRow)
    (h1 : transformOne t = .ok ft) (h2 : r ∈ ft) :
    r.SMA_10.isSome ∧ r.SMA_50.isSome ∧ r.Daily_Return.isSome ∧
      r.RSI_14.isSome ∧ r.Volatility_30.isSome := by
  rw [transformOne] at h1
  split_ifs at h1
  all_goals first
    | exact TransformResult.noConfusion h1
    | ( cases h1
        have hf := (List.mem_filter.mp h2).2
        rw [fullRow] at hf
        simp only [Bool.and_eq_true] at hf
        exact ⟨hf.1.1.1.1, hf.1.1.1.2, hf.1.1.2, hf.1.2, hf.2⟩ )

/-- Witness for `features_rows_complete`: the 50-row constant table produces
exactly one row, and that row has all five derived fields present. -/
theorem features_rows_complete_witness :
    transformOne goodTable = .ok [goodRow] ∧ goodRow ∈ [goodRow] ∧
      (goodRow.SMA_10.isSome ∧ goodRow.SMA_50.isSome ∧ goodRow.Daily_Return.isSome ∧
        goodRow.RSI_14.isSome ∧ goodRow.Volatility_30.isSome) :=
  ⟨transformOne_goodTable, by simp,
    features_rows_complete goodTable [goodRow] goodRow transformOne_goodTable (by simp)⟩

/-- **C2** — `avg_gain`/`avg_loss` are rolling means of the per-step gains and
losses over the trailing 14 observations, a shorter window at the series start
averaging over however many observations exist (minimum window 1, so the
trailing list is never empty); when `avg_loss = 0` the RSI is exactly 100; and
every RSI value lies in the closed interval `[0, 100]`. -/
theorem rsi_rolling_mean_and_bounds (closes : List ℚ) (t : Nat)
    (ht : t < closes.length) :
    avgGainAt 14 closes t = some (meanQ (trailingGains closes t)) ∧
    avgLossAt 14 closes t = some (meanQ (trailingLosses closes t)) ∧
    1 ≤ (trailingGains closes t).length ∧
    (trailingGains closes t).length = min 14 (t + 1) ∧
    (avgLossAt 14 closes t = some 0 → rsiAt 14 closes t = some 100) ∧
    ∀ r, rsiAt 14 closes t = some r → 0 ≤ r ∧ r ≤ 100 := by
  have hlen : (trailingGains closes t).length = min 14 (t + 1) := by
    rw [trailingGains, List.length_map, List.length_range']
  refine ⟨avgGainAt_eq closes t ht, avgLossAt_eq closes t ht, by omega, hlen, ?_, ?_⟩
  · intro hz
    rw [avgLossAt_eq closes t ht] at hz
    have hl0 : meanQ (trailingLosses closes t) = 0 := Option.some.inj hz
    rw [rsiAt, avgGainAt_eq closes t ht, avgLossAt_eq closes t ht]
    dsimp only
    rw [if_pos hl0]
  · intro r hr
    rw [rsiAt, avgGainAt_eq closes t ht, avgLossAt_eq closes t ht] at hr
    dsimp only at hr
    have hr' : (if meanQ (trailingLosses closes t) = 0 then (100 : ℚ)
        else 100 - 100 / (1 + meanQ (trailingGains closes t) /
          meanQ (trailingLosses closes t))) = r := Option.some.inj hr
    have hg : 0 ≤ meanQ (trailingGains closes t) :=
      meanQ_nonneg _ (trailingGains_nonneg closes t)
    have hl : 0 ≤ meanQ (trailingLosses closes t) :=
      meanQ_nonneg _ (trailingLosses_nonneg closes t)
    by_cases hz : meanQ (trailingLosses closes t) = 0
    · rw [if_pos hz] at hr'
      rw [← hr']
      norm_num
    · rw [if_neg hz] at hr'
      have hx : 0 ≤ meanQ (trailingGains closes t) / meanQ (trailingLosses closes t) :=
        div_nonneg hg hl
      have hd1 : (0 : ℚ) < 100 / (1 + meanQ (trailingGains closes t) /
          meanQ (trailingLosses closes t)) := div_pos (by norm_num) (by linarith)
      have hd2 : 100 / (1 + meanQ (trailingGains closes t) /
          meanQ (trailingLosses closes t)) ≤ 100 := div_le_self (by norm_num) (by linarith)
      constructor
      · rw [← hr']; linarith
      · rw [← hr']; linarith

/-- Witness for `rsi_rolling_mean_and_bounds` at `closes = [1, 2]`, `t = 1`. -/
theorem rsi_rolling_mean_and_bounds_witness :
    1 < ([1, 2] : List ℚ).length ∧
      (avgGainAt 14 [1, 2] 1 = some (meanQ (trailingGains [1, 2] 1)) ∧
       avgLossAt 14 [1, 2] 1 = some (meanQ (trailingLosses [1, 2] 1)) ∧
       1 ≤ (trailingGains [1, 2] 1).length ∧
       (trailingGains [1, 2] 1).length = min 14 (1 + 1) ∧
       (avgLossAt 14 [1, 2] 1 = some 0 → rsiAt 14 [1, 2] 1 = some 100) ∧
       ∀ r, rsiAt 14 [1, 2] 1 = some r → 0 ≤ r ∧ r ≤ 100) :=
  ⟨by norm_num, rsi_rolling_mean_and_bounds [1, 2] 1 (by norm_num)⟩

/-- **C3** — On the coerced, date-ascending series: `SMA_10`/`SMA_50` equal
the arithmetic mean of close over the trailing 10/50 observations and are
missing wherever fewer than the full window exists (never zero, never a
partial mean); `Volatility_30` equals the rolling sample standard deviation of
`Daily_Return` over the trailing 30 observations and is missing until the
31st observation (position 30), the first with 30 defined trailing returns. -/
theorem sma_vol_strict_windows (closes : List ℚ) (t : Nat)
    (ht : t < closes.length) (hpos : ∀ c ∈ closes, 0 < c) :
    (t + 1 < 10 → smaAt 10 closes t = none) ∧
    (10 ≤ t + 1 → smaAt 10 closes t = some (meanQ (trailingCloses 10 closes t))) ∧
    (t + 1 < 50 → smaAt 50 closes t = none) ∧
    (50 ≤ t + 1 → smaAt 50 closes t = some (meanQ (trailingCloses 50 closes t))) ∧
    (t < 30 → vol30At closes t = none) ∧
    (30 ≤ t → vol30At closes t = some (sampleVarQ (trailingReturns closes t))) ∧
    (30 ≤ t → vol30StdAt closes t =
      some (Real.sqrt ((sampleVarQ (trailingReturns closes t) : ℚ) : ℝ))) := by
  refine ⟨?_, ?_, ?_, ?_, ?_, ?_, ?_⟩
  · intro h
    exact rollingApply_none_of_short _ _ _ _ _ (by omega)
  · intro h
    rw [smaAt, rollingApply_all_some 10 10 meanQ _ (closeAt closes) t
      (fun i h1 h2 => getD_map_some closes i (by omega)) (by omega)]
    rfl
  · intro h
    exact rollingApply_none_of_short _ _ _ _ _ (by omega)
  · intro h
    rw [smaAt, rollingApply_all_some 50 50 meanQ _ (closeAt closes) t
      (fun i h1 h2 => getD_map_some closes i (by omega)) (by omega)]
    rfl
  · intro h
    exact vol30At_none_of_lt closes t ht h
  · intro h
    exact vol30At_eq_of_ge closes t ht h
  · intro h
    rw [vol30StdAt, vol30At_eq_of_ge closes t ht h]
    rfl

/-- Witness for `sma_vol_strict_windows` on 31 constant positive closes at
position 30 (the first position carrying a `Volatility_30` value). -/
theorem sma_vol_strict_windows_witness :
    30 < (List.replicate 31 (1 : ℚ)).length ∧
    (∀ c ∈ List.replicate 31 (1 : ℚ), 0 < c) ∧
    ((30 + 1 < 10 → smaAt 10 (List.replicate 31 (1 : ℚ)) 30 = none) ∧
     (10 ≤ 30 + 1 → smaAt 10 (List.replicate 31 (1 : ℚ)) 30 =
        some (meanQ (trailingCloses 10 (List.replicate 31 (1 : ℚ)) 30))) ∧
     (30 + 1 < 50 → smaAt 50 (List.replicate 31 (1 : ℚ)) 30 = none) ∧
     (50 ≤ 30 + 1 → smaAt 50 (List.replicate 31 (1 : ℚ)) 30 =
        some (meanQ (trailingCloses 50 (List.replicate 31 (1 : ℚ)) 30))) ∧
     (30 < 30 → vol30At (List.replicate 31 (1 : ℚ)) 30 = none) ∧
     (30 ≤ 30 → vol30At (List.replicate 31 (1 : ℚ)) 30 =
        some (sampleVarQ (trailingReturns (List.replicate 31 (1 : ℚ)) 30))) ∧
     (30 ≤ 30 → vol30StdAt (List.replicate 31 (1 : ℚ)) 30 =
        some (Real.sqrt ((sampleVarQ (trailingReturns (List.replicate 31 (1 : ℚ)) 30) : ℚ) : ℝ)))) :=
  ⟨by simp, fun c hc => by rw [List.eq_of_mem_replicate hc]; norm_num,
    sma_vol_strict_windows (List.replicate 31 (1 : ℚ)) 30 (by simp)
      (fun c hc => by rw [List.eq_of_mem_replicate hc]; norm_num)⟩

/-- **C4** (counterexample) — The claim asserts that the 10th-point SMA equals
11.0, but the arithmetic mean of `[10, 11, 12, 11, 10, 9, 10, 11, 12, 13]` is
10.9, and the code computes exactly that. -/
theorem sma10_example_not_eleven :
    meanQ exampleCloses ≠ 11 ∧ smaAt 10 exampleCloses 9 ≠ some 11 := by
  constructor
  · norm_num [meanQ, exampleCloses]
  · norm_num [smaAt, exampleCloses, rollingApply, rollingWindow, meanQ,
      List.range', List.filterMap_cons]

/-- **C4** (amended) — For `close = [10, 11, 12, 11, 10, 9, 10, 11, 12, 13]`,
`SMA_10` is missing at points 1 through 9 and present only at the 10th point,
where it equals the mean of all ten values, namely 10.9 (= 109/10). -/
theorem sma10_example_values :
    smaAt 10 exampleCloses 0 = none ∧ smaAt 10 exampleCloses 1 = none ∧
    smaAt 10 exampleCloses 2 = none ∧ smaAt 10 exampleCloses 3 = none ∧
    smaAt 10 exampleCloses 4 = none ∧ smaAt 10 exampleCloses 5 = none ∧
    smaAt 10 exampleCloses 6 = none ∧ smaAt 10 exampleCloses 7 = none ∧
    smaAt 10 exampleCloses 8 = none ∧
    smaAt 10 exampleCloses 9 = some (meanQ exampleCloses) ∧
    meanQ exampleCloses = 109 / 10 := by
  norm_num [smaAt, exampleCloses, rollingApply, rollingWindow, meanQ,
    List.range', List.filterMap_cons]

/-- **C10** — `calculate_rsi` returns exactly 100 at the first position of
every non-empty close series: the undefined first difference becomes 0 in both
the gain and the loss series, the first `avg_loss` is 0, and the
`avg_loss == 0` branch yields 100. -/
theorem rsi_first_row_hundred (closes : List ℚ) (h : closes ≠ []) :
    gainAt closes 0 = 0 ∧ lossAt closes 0 = 0 ∧
    avgGainAt 14 closes 0 = some 0 ∧ avgLossAt 14 closes 0 = some 0 ∧
    rsiAt 14 closes 0 = some 100 := by
  have hlen : 0 < closes.length := List.length_pos.mpr h
  have hg : gainAt closes 0 = 0 := by simp [gainAt, deltaAt]
  have hlz : lossAt closes 0 = 0 := by simp [lossAt, deltaAt]
  have htg : trailingGains closes 0 = [gainAt closes 0] := by
    rw [trailingGains]
    norm_num [List.range']
  have htl : trailingLosses closes 0 = [lossAt closes 0] := by
    rw [trailingLosses]
    norm_num [List.range']
  have hag : avgGainAt 14 closes 0 = some 0 := by
    rw [avgGainAt_eq closes 0 hlen, htg, hg]
    norm_num [meanQ]
  have hal : avgLossAt 14 closes 0 = some 0 := by
    rw [avgLossAt_eq closes 0 hlen, htl, hlz]
    norm_num [meanQ]
  refine ⟨hg, hlz, hag, hal, ?_⟩
  rw [rsiAt, hag, hal]
  norm_num

/-- Witness for `rsi_first_row_hundred` at `closes = [5]`. -/
theorem rsi_first_row_hundred_witness :
    ([5] : List ℚ) ≠ [] ∧
      (gainAt [5] 0 = 0 ∧ lossAt [5] 0 = 0 ∧ avgGainAt 14 [5] 0 = some 0 ∧
       avgLossAt 14 [5] 0 = some 0 ∧ rsiAt 14 [5] 0 = some 100) :=
  ⟨by simp, rsi_first_row_hundred [5] (by simp)⟩

/-- **C5** — The replace is not atomic for a reader: the code commits
`DROP TABLE` before `to_sql` rebuilds the table, so the intermediate
observable state shows no table at all — neither the complete old table nor
the complete new one.  Evaluated here on a one-table store. -/
theorem replace_intermediate_state_visible :
    eraseA "sbin_ns_enriched" [("sbin_ns_enriched", oldTable)] ∈
      ingestReplaceStates [("sbin_ns_enriched", oldTable)] "sbin_ns_enriched" newTable ∧
    lookupA "sbin_ns_enriched" [("sbin_ns_enriched", oldTable)] = some oldTable ∧
    lookupA "sbin_ns_enriched"
      (eraseA "sbin_ns_enriched" [("sbin_ns_enriched", oldTable)]) = none ∧
    lookupA "sbin_ns_enriched"
      (insertA "sbin_ns_enriched" newTable
        (eraseA "sbin_ns_enriched" [("sbin_ns_enriched", oldTable)])) = some newTable :=
  ⟨by simp [ingestReplaceStates], by simp [lookupA], by simp [eraseA, lookupA],
    by simp [eraseA, insertA, lookupA]⟩

/-- **C6** (counterexample) — A raw table with a malformed schema aborts the
whole transform loop: with the bad table `b` present, instrument `c` (which
alone produces a features table) gets none; without `b` it is written. -/
theorem transform_abort_blocks_later_instruments :
    lookupA "c" (transformRun storeWithoutBadSchema).feat = some [goodRow] ∧
    lookupA "c" (transformRun storeWithBadSchema).feat = none := by
  constructor
  · have hra : lookupA "a" storeWithoutBadSchema.raw = some unparsableTable := by
      simp [storeWithoutBadSchema, lookupA]
    have hrc : lookupA "c" storeWithoutBadSchema.raw = some goodTable := by
      simp [storeWithoutBadSchema, lookupA]
    have hkeys : rawKeys storeWithoutBadSchema.raw = ["a", "c"] := rfl
    rw [transformRun, hkeys]
    have h1 : transformGo storeWithoutBadSchema ["a", "c"] =
        transformGo storeWithoutBadSchema ["c"] := by
      simp only [transformGo, hra, transformOne_unparsableTable]
    have h2 : transformGo storeWithoutBadSchema ["c"] =
        transformGo { storeWithoutBadSchema with
          feat := insertA "c" [goodRow] storeWithoutBadSchema.feat } [] := by
      simp only [transformGo, hrc, transformOne_goodTable]
    rw [h1, h2]
    simp [transformGo, storeWithoutBadSchema, insertA, lookupA]
  · have hra : lookupA "a" storeWithBadSchema.raw = some unparsableTable := by
      simp [storeWithBadSchema, lookupA]
    have hrb : lookupA "b" storeWithBadSchema.raw = some badSchemaTable := by
      simp [storeWithBadSchema, lookupA]
    have hkeys : rawKeys storeWithBadSchema.raw = ["a", "b", "c"] := rfl
    rw [transformRun, hkeys]
    have h1 : transformGo storeWithBadSchema ["a", "b", "c"] =
        transformGo storeWithBadSchema ["b", "c"] := by
      simp only [transformGo, hra, transformOne_unparsableTable]
    have h2 : transformGo storeWithBadSchema ["b", "c"] = storeWithBadSchema := by
      simp only [transformGo, hrb, transformOne_badSchemaTable]
    rw [h1, h2]
    simp [storeWithBadSchema, lookupA]

/-- **C6** (amended) — Ingestion failures are isolated per file: the
`try/except` in `load_csv_to_postgres` means every file is attempted whatever
happened before it.  In the transformer, a malformed RawTable raises and
aborts the whole loop: instruments before the failure are processed normally,
instruments after it are not processed at all. -/
theorem isolation_amended (files : List CsvFile) (s : List (String × Table))
    (lk : String → Option Table) (ns1 ns2 : List String) (b : String) (tb : Table)
    (hb : lk b = some tb) (htb : transformOne tb = .error)
    (h1 : ∀ n ∈ ns1, ∀ t', lk n = some t' → transformOne t' ≠ .error) :
    (loadAll files s).2 = files.map (fun f => f.ok) ∧
    goWrites lk (ns1 ++ b :: ns2) = goWrites lk ns1 :=
  ⟨loadAll_snd files s, goWrites_append_error lk ns1 ns2 b tb hb htb h1⟩

/-- Witness for `isolation_amended`: one good and one failing file, and a
discovery list whose middle table has a malformed schema. -/
theorem isolation_amended_witness :
    lkDemo "b" = some badSchemaTable ∧ transformOne badSchemaTable = .error ∧
    (∀ n ∈ ["a"], ∀ t', lkDemo n = some t' → transformOne t' ≠ .error) ∧
    ((loadAll [fileA, fileB] []).2 = [fileA, fileB].map (fun f => f.ok) ∧
      goWrites lkDemo (["a"] ++ "b" :: ["c"]) = goWrites lkDemo ["a"]) := by
  have hok : ∀ n ∈ ["a"], ∀ t', lkDemo n = some t' → transformOne t' ≠ .error := by
    intro n hn t' ht'
    have hn' : n = "a" := by simpa using hn
    subst hn'
    have ha : lkDemo "a" = some unparsableTable := by simp [lkDemo, lookupA]
    rw [ha] at ht'
    cases ht'
    rw [transformOne_unparsableTable]
    simp
  exact ⟨by simp [lkDemo, lookupA], transformOne_badSchemaTable, hok,
    isolation_amended [fileA, fileB] [] lkDemo ["a"] ["c"] "b" badSchemaTable
      (by simp [lkDemo, lookupA]) transformOne_badSchemaTable hok⟩

/-- **C7** — A raw table that is empty after numeric coercion produces the
"no data" outcome `skip` (not an error), no features table is written for it,
and the loop continues with the remaining instruments. -/
theorem empty_after_coercion_skips (t : Table) (lk : String → Option Table)
    (n : String) (ns : List String)
    (hcols : hasRequiredCols t = true) (hclean : cleanRows t = [])
    (hlk : lk n = some t) :
    transformOne t = .skip ∧ transformOne t ≠ .error ∧
      goWrites lk (n :: ns) = goWrites lk ns := by
  have hskip : transformOne t = .skip := by
    rw [transformOne, if_pos hcols]
    cases he : (orderByDateAsc t.rows).isEmpty
    · simp [hclean]
    · simp
  refine ⟨hskip, by rw [hskip]; simp, ?_⟩
  simp only [goWrites, hlk, hskip]

/-- Witness for `empty_after_coercion_skips`: a table whose single row fails
coercion, sitting first in a three-instrument discovery list. -/
theorem empty_after_coercion_skips_witness :
    hasRequiredCols unparsableTable = true ∧ cleanRows unparsableTable = [] ∧
    lkDemo "a" = some unparsableTable ∧
    (transformOne unparsableTable = .skip ∧ transformOne unparsableTable ≠ .error ∧
      goWrites lkDemo ("a" :: ["c"]) = goWrites lkDemo ["c"]) := by
  have hclean : cleanRows unparsableTable = [] := by
    simp [cleanRows, unparsableTable, orderByDateAsc, insertByDate, coerceRow]
  exact ⟨by simp [hasRequiredCols, unparsableTable], hclean,
    by simp [lkDemo, lookupA],
    empty_after_coercion_skips unparsableTable lkDemo "a" ["c"]
      (by simp [hasRequiredCols, unparsableTable]) hclean (by simp [lkDemo, lookupA])⟩

/-- **C8** — Running the Ingestor followed by the Transformer twice on the
same input files leaves every instrument's FeaturesTable identical to what
the first run produced: both runs are deterministic functions of the input,
and the full-replace writes of the second run replay the first run's. -/
theorem pipeline_idempotent (files : List CsvFile) (s : Store) (inst : String) :
    lookupA inst (runPipeline files (runPipeline files s)).feat =
      lookupA inst (runPipeline files s).feat := by
  cases hok : files.all (fun f => f.ok) with
  | false =>
    have hcond : ∀ r : List (String × Table),
        ¬((ingest_data_to_postgres files r).2 = true) := by
      intro r
      rw [ingest_snd files r, hok]
      simp
    have h1 : runPipeline files s =
        { raw := (ingest_data_to_postgres files s.raw).1, feat := s.feat } := by
      rw [runPipeline, if_neg (hcond s.raw)]
    rw [h1, runPipeline, if_neg (hcond _)]
  | true =>
    have hcond : ∀ r : List (String × Table),
        (ingest_data_to_postgres files r).2 = true := by
      intro r
      rw [ingest_snd files r, hok]
    have hS1 : runPipeline files s =
        { raw := insertAllA (ingestWrites files) s.raw,
          feat := insertAllA
            (goWrites (fun n => lookupA n (insertAllA (ingestWrites files) s.raw))
              (rawKeys (insertAllA (ingestWrites files) s.raw))) s.feat } := by
      rw [runPipeline, if_pos (hcond s.raw), transformRun, transformGo_eq,
        ingest_fst files s.raw]
    have hS2 : runPipeline files (runPipeline files s) =
        { raw := insertAllA (ingestWrites files) (insertAllA (ingestWrites files) s.raw),
          feat := insertAllA
            (goWrites (fun n => lookupA n
                (insertAllA (ingestWrites files) (insertAllA (ingestWrites files) s.raw)))
              (rawKeys (insertAllA (ingestWrites files)
                (insertAllA (ingestWrites files) s.raw))))
            (insertAllA
              (goWrites (fun n => lookupA n (insertAllA (ingestWrites files) s.raw))
                (rawKeys (insertAllA (ingestWrites files) s.raw))) s.feat) } := by
      rw [hS1, runPipeline, if_pos (hcond _), transformRun, transformGo_eq, ingest_fst]
    have hkeys : (insertAllA (ingestWrites files) (insertAllA (ingestWrites files) s.raw)).map
        Prod.fst = (insertAllA (ingestWrites files) s.raw).map Prod.fst := by
      refine map_fst_insertAllA_of_subset _ _ ?_
      intro p hp
      exact mem_map_fst_insertAllA (ingestWrites files) s.raw p.1
        (List.mem_map.mpr ⟨p, hp, rfl⟩)
    have hlook : ∀ n, lookupA n
        (insertAllA (ingestWrites files) (insertAllA (ingestWrites files) s.raw)) =
        lookupA n (insertAllA (ingestWrites files) s.raw) := fun n =>
      lookupA_insertAllA_idem n (ingestWrites files) s.raw
    have hW : goWrites (fun n => lookupA n
          (insertAllA (ingestWrites files) (insertAllA (ingestWrites files) s.raw)))
        (rawKeys (insertAllA (ingestWrites files) (insertAllA (ingestWrites files) s.raw))) =
        goWrites (fun n => lookupA n (insertAllA (ingestWrites files) s.raw))
          (rawKeys (insertAllA (ingestWrites files) s.raw)) := by
      rw [show rawKeys (insertAllA (ingestWrites files)
          (insertAllA (ingestWrites files) s.raw)) =
          rawKeys (insertAllA (ingestWrites files) s.raw) from hkeys]
      exact goWrites_congr _ _ _ hlook
    rw [hS2, hS1, hW]
    exact lookupA_insertAllA_idem inst _ s.feat

/-- **C9** — When the transform of an instrument produces no output rows
(`skip`), its features table is left untouched: a FeaturesTable from an
earlier run stays visible unchanged, because the drop-and-replace happens
only on the `ok` path. -/
theorem skip_preserves_features_table (s : Store) (inst : String) (t : Table)
    (h1 : lookupA inst s.raw = some t) (h2 : transformOne t = .skip) :
    lookupA inst (transformRun s).feat = lookupA inst s.feat := by
  rw [transformRun, transformGo_eq]
  exact lookupA_insertAllA_not_mem inst _ s.feat
    (goWrites_not_mem_of_skip _ (rawKeys s.raw) inst t h1 h2)

/-- Witness for `skip_preserves_features_table`: the leftover features table
of an instrument whose raw table cleans to nothing stays visible unchanged. -/
theorem skip_preserves_features_table_witness :
    lookupA "a" skipStore.raw = some unparsableTable ∧
    transformOne unparsableTable = .skip ∧
    lookupA "a" (transformRun skipStore).feat = lookupA "a" skipStore.feat :=
  ⟨by simp [skipStore, lookupA], transformOne_unparsableTable,
    skip_preserves_features_table skipStore "a" unparsableTable
      (by simp [skipStore, lookupA]) transformOne_unparsableTable⟩

end AirStock
